import Mathlib

/-!
Verification of the SafeUDP FEC core (fec.go, autotune.go) against its
natural-language specification.  The Go code is shallowly embedded: byte
slices become `List Nat` (each entry a byte value), `uint32` arithmetic is
`Nat` with explicit reduction modulo `2^32`, Go maps become association
lists, and every loop becomes structural recursion (with ample fuel where
the Go loop is bounded by a constant).
-/

set_option maxRecDepth 100000

namespace SafeUDP

/-- Bytes of a packet or payload: each entry is one byte value. -/
abbrev Bytes := List Nat

/-- The modulus of 32-bit unsigned arithmetic. -/
def U32 : Nat := 4294967296

/-- Wire type tag for data shards (fec.go: `typeData = 0xf1`). -/
def typeData : Nat := 0xf1

/-- Wire type tag for parity shards (fec.go: `typeParity = 0xf2`). -/
def typeParity : Nat := 0xf2

/-- Retention window for shard sets (fec.go: `maxShardSets = 3`). -/
def maxShardSets : Nat := 3

/-- Size of the FEC header in bytes (fec.go: `fecHeaderSize = 6`). -/
def fecHeaderSize : Nat := 6

/-- Modelled from the spec: `timediff` lives in `safeudp.go`, which is not
part of the provided sources; the spec calls for a wraparound-safe signed
comparison of 32-bit sequence ids, i.e. the difference interpreted as a
signed 32-bit integer. -/
def timediff (a b : Nat) : Int :=
  let d := (a % U32 + U32 - b % U32) % U32
  if d < 2147483648 then (d : Int) else (d : Int) - (U32 : Int)

/-- Little-endian `u32` read of the first four bytes (fec.go `seqid`). -/
def seqid (p : Bytes) : Nat :=
  p.getD 0 0 + 256 * p.getD 1 0 + 65536 * p.getD 2 0 + 16777216 * p.getD 3 0

/-- Little-endian `u16` read of bytes 4..5 (fec.go `flag`). -/
def flagOf (p : Bytes) : Nat :=
  p.getD 4 0 + 256 * p.getD 5 0

/-- Payload after the 6-byte FEC header (fec.go `data`). -/
def dataOf (p : Bytes) : Bytes := p.drop 6

/-- Build a framed shard packet: little-endian sequence id, little-endian
type tag, then the payload (the encoder's wire format). -/
def mkPacket (seq : Nat) (ty : Nat) (payload : Bytes) : Bytes :=
  [seq % 256, seq / 256 % 256, seq / 65536 % 256, seq / 16777216 % 256,
   ty % 256, ty / 256 % 256] ++ payload

/-! ## Auto-tuner (autotune.go) -/

/-- Maximum number of pulse samples (autotune.go `MaxAutoTuneSamples`). -/
def MaxAutoTuneSamples : Nat := 256

/-- One pulse sample: the type bit and the sequence number observed. -/
structure Pulse where
  bit : Bool
  seq : Nat
  deriving Repr, DecidableEq

/-- The auto-tuner: a 256-slot circular pulse log (autotune.go `autoTune`).
Represented as a list of length 256; slot `i` is entry `i`. -/
structure autoTune where
  pulses : List Pulse
  deriving Repr, DecidableEq

/-- Zero value of the pulse log: all slots `{bit := false, seq := 0}`,
matching the Go zero value of the `[256]pulse` array. -/
def autoTune.zero : autoTune :=
  ⟨List.replicate MaxAutoTuneSamples ⟨false, 0⟩⟩

/-- Read slot `i` of the pulse log (out-of-range reads, which the Go code
never performs, give the zero pulse). -/
def autoTune.get (t : autoTune) (i : Nat) : Pulse :=
  t.pulses.getD i ⟨false, 0⟩

/-- Record a pulse sample (autotune.go `Sample`): accepted only when the
sequence lies within `[anchor, anchor+256]` where `anchor` is the sequence
stored in slot 0; accepted samples overwrite slot `seq % 256`. The upper
bound is computed in wrapping `uint32` arithmetic, as in Go. -/
def autoTune.sample (t : autoTune) (bit : Bool) (seq : Nat) : autoTune :=
  let anchor := (t.get 0).seq
  if anchor ≤ seq ∧ seq ≤ (anchor + MaxAutoTuneSamples) % U32 then
    ⟨t.pulses.set (seq % MaxAutoTuneSamples) ⟨bit, seq⟩⟩
  else t

/-- Phase 1 of `FindPeriod`: scan from `idx` for the first transition from
`!bit` to `bit`, chaining `lastPulse`; returns the slot of the left edge,
or 0 when the scan reaches the end of the log without a transition (the Go
code leaves `leftEdge` at its zero value in that case).  `fuel` only bounds
the recursion; `256` is always enough since `idx` only increases. -/
def findLeft (t : autoTune) (bit : Bool) : Nat → Pulse → Nat → Nat
  | 0, _, _ => 0
  | fuel + 1, last, idx =>
    if idx < MaxAutoTuneSamples then
      if last.bit ≠ bit ∧ (t.get idx).bit = bit then idx
      else findLeft t bit fuel (t.get idx) (idx + 1)
    else 0

/-- Phase 2 of `FindPeriod`: scan from `idx` requiring strictly consecutive
sequence numbers; `none` models the Go `return -1` on a gap, `some r` the
right edge (with `some 0` when the scan ends without a transition, matching
the zero-valued `rightEdge`). -/
def findRight (t : autoTune) (bit : Bool) : Nat → Pulse → Nat → Option Nat
  | 0, _, _ => some 0
  | fuel + 1, last, idx =>
    if idx < MaxAutoTuneSamples then
      if (last.seq + 1) % U32 = (t.get idx).seq then
        if last.bit = bit ∧ (t.get idx).bit ≠ bit then some idx
        else findRight t bit fuel (t.get idx) (idx + 1)
      else none
    else some 0

/-- Detect the period of `bit` runs (autotune.go `FindPeriod`): find the
left edge from slot 1, then the right edge from the left edge onward, and
return `rightEdge - leftEdge`; a consecutiveness gap in phase 2 yields -1. -/
def autoTune.findPeriod (t : autoTune) (bit : Bool) : Int :=
  let leftEdge := findLeft t bit MaxAutoTuneSamples (t.get 0) 1
  match findRight t bit MaxAutoTuneSamples (t.get leftEdge) (leftEdge + 1) with
  | none => -1
  | some rightEdge => (rightEdge : Int) - (leftEdge : Int)

/-! ## Shard heap (fec.go `shardHeap`)

The decoder calls the struct methods `Push`/`Pop` directly (never
`heap.Push`/`heap.Pop`), so the element slice behaves as a plain stack:
`Push` appends, `Pop` removes the last element and clears its dedup mark. -/

/-- Collection of the packets of one shard set: the element stack plus the
set of sequence ids used for duplicate suppression. -/
structure shardHeap where
  elements : List Bytes
  marks : List Nat
  deriving Repr, DecidableEq

/-- A freshly created, empty shard heap (fec.go `newShardHeap`). -/
def shardHeap.empty : shardHeap := ⟨[], []⟩

/-- Membership test on the dedup marks (fec.go `shardHeap.Contains`). -/
def shardHeap.contains (h : shardHeap) (s : Nat) : Bool := h.marks.contains s

/-- Add a packet and mark its sequence id (fec.go `shardHeap.Push`). -/
def shardHeap.push (h : shardHeap) (p : Bytes) : shardHeap :=
  ⟨h.elements ++ [p], seqid p :: h.marks⟩

/-! ## Reed-Solomon codec model

The codec comes from the external `klauspost/reedsolomon` library, so it is
not code of this repository.  The decoder model is parameterised over the
reconstruction function; the claims that need a concrete run are
instantiated with `rsModel`, which follows the library's documented
contract as echoed by the spec. -/

/-- Shape of a `ReconstructData` model: given the slot array (`none` is a
Go nil slice), return the updated slot array on success or `none` on
error.  The first two arguments are the data/parity counts the codec was
built with. -/
abbrev ReconFam := Nat → Nat → List (Option Bytes) → Option (List (Option Bytes))

/-- Presence criterion of the library: a shard counts as present exactly
when it is non-nil and has non-zero length. -/
def shardPresent (o : Option Bytes) : Bool :=
  match o with
  | some b => !b.isEmpty
  | none => false

/-- Byte-wise XOR of two equal-length byte lists (shorter one zero-padded). -/
def xorBytes (a b : Bytes) : Bytes :=
  match a, b with
  | [], b => b
  | a, [] => a
  | x :: a, y :: b => (x ^^^ y) :: xorBytes a b

/-- Modelled from the spec: the data-reconstruction step of the external
Reed-Solomon codec.  Per the library contract, shards of zero length are
treated as missing; if every data slot is present nothing is done; if at
least `d` of the `d + p` slots are present each missing data slot is filled
by erasure decoding (here the single-parity XOR code, an MDS code for
`p = 1`, stands in for the field arithmetic); otherwise the call fails. -/
def rsModel : ReconFam := fun d _p shards =>
  let dataPresent := (shards.take d).all shardPresent
  if dataPresent then some shards
  else if d ≤ (shards.filter shardPresent).length then
    let fill := (shards.filter shardPresent).foldl
      (fun acc o => xorBytes acc (o.getD [])) []
    some ((List.range shards.length).map (fun k =>
      match shards.getD k none with
      | some b => if b.isEmpty ∧ k < d then some fill else some b
      | none => if k < d then some fill else none))
  else none

/-- Modelled from the spec: success predicate of `reedsolomon.New` from the
external library — construction succeeds for positive data-shard counts,
non-negative parity counts and at most 256 total shards. -/
def rsNewOk (d p : Nat) : Bool := 0 < d && 0 < p && d + p ≤ 256

/-! ## Metrics (snmp counters touched by the FEC core) -/

/-- The six FEC-related counters of the process-wide metrics sink, carried
through the model state so that counter claims can be stated. -/
structure Snmp where
  fecFullShardSet : Nat
  fecRecovered : Nat
  fecErrs : Nat
  fecParityShards : Nat
  fecShardSet : Nat
  fecShardMin : Nat
  deriving Repr, DecidableEq

/-- All counters zero. -/
def Snmp.zero : Snmp := ⟨0, 0, 0, 0, 0, 0⟩

/-! ## Shard decoder (fec.go `fecDecoder`) -/

/-- Decoder state.  `codecD`/`codecP` record the geometry the current codec
was built with and `cacheSize` the length of `decodeCache`/`flagCache`, so
that the atomicity of reconfiguration is observable. -/
structure fecDecoder where
  dataShards : Nat
  parityShards : Nat
  shardSize : Nat
  shardSet : List (Nat × shardHeap)
  minShardId : Nat
  codecD : Nat
  codecP : Nat
  cacheSize : Nat
  tune : autoTune
  shouldTune : Bool
  snmp : Snmp
  deriving Repr, DecidableEq

/-- Constructor (fec.go `newFECDecoder`): fails on non-positive shard
counts or codec-construction failure. -/
def newFECDecoder (dataShards parityShards : Nat) : Option fecDecoder :=
  if 0 < dataShards ∧ 0 < parityShards ∧ rsNewOk dataShards parityShards then
    some { dataShards := dataShards
           parityShards := parityShards
           shardSize := dataShards + parityShards
           shardSet := []
           minShardId := 0
           codecD := dataShards
           codecP := parityShards
           cacheSize := dataShards + parityShards
           tune := autoTune.zero
           shouldTune := false
           snmp := Snmp.zero }
  else none

/-- Group id of a sequence id (fec.go `getShardId`). -/
def fecDecoder.getShardId (dec : fecDecoder) (s : Nat) : Nat :=
  s / dec.shardSize

/-- Association-list lookup for the shard-set map. -/
def lookupSet : List (Nat × shardHeap) → Nat → Option shardHeap
  | [], _ => none
  | (k, h) :: rest, g => if k = g then some h else lookupSet rest g

/-- Replace the entry for key `g` (the key is known to be present when the
decoder uses this; an absent key appends, matching Go map assignment). -/
def storeSet : List (Nat × shardHeap) → Nat → shardHeap → List (Nat × shardHeap)
  | [], g, h => [(g, h)]
  | (k, h0) :: rest, g, h =>
    if k = g then (g, h) :: rest else (k, h0) :: storeSet rest g h

/-- Zero-pad (or truncate) a payload to length `n`, modelling the Go
reslice `shards[k] = shards[k][:maxLen]; clear(shards[k][dlen:])` on a
pool-backed buffer whose tail bytes become zero. -/
def padTo (b : Bytes) (n : Nat) : Bytes :=
  b.take n ++ List.replicate (n - b.length) 0

/-- Intermediate state of the drain loop in `fecDecoder.decode`: the slot
array, the genuine-member flags, the data-member count, the running maximum
payload length, the recovered output accumulated so far, and the metrics. -/
structure DrainState where
  shards : List (Option Bytes)
  flags : List Bool
  numDataShard : Nat
  maxLen : Nat
  recovered : List Bytes
  snmp : Snmp
  deriving Repr, DecidableEq

/-- One iteration of the drain loop (fec.go lines 197-241): place the
popped packet into its slot, update the data count and max length, and
then — inside the loop, as the code does — either count a full shard set
(when the data count equals `D`) or pad the present slots, allocate empty
buffers for missing data slots, and attempt a reconstruction. -/
def drainStep (rf : ReconFam) (D codecD codecP : Nat) (S : Nat)
    (st : DrainState) (pkt : Bytes) : DrainState :=
  let idx := seqid pkt % S
  let shards := st.shards.set idx (some (dataOf pkt))
  let flags := st.flags.set idx true
  let numDataShard :=
    if flagOf pkt = typeData then st.numDataShard + 1 else st.numDataShard
  let maxLen := max st.maxLen (dataOf pkt).length
  if numDataShard = D then
    { st with
      shards := shards
      flags := flags
      numDataShard := numDataShard
      maxLen := maxLen
      snmp := { st.snmp with fecFullShardSet := st.snmp.fecFullShardSet + 1 } }
  else
    let shards := (List.range shards.length).map (fun k =>
      match shards.getD k none with
      | some b => some (padTo b maxLen)
      | none => if k < D then some ([] : Bytes) else none)
    match rf codecD codecP shards with
    | some shards2 =>
      let recovered := st.recovered ++ (List.range D).filterMap (fun k =>
        if flags.getD k false then none else some ((shards2.getD k none).getD []))
      { shards := shards2
        flags := flags
        numDataShard := numDataShard
        maxLen := maxLen
        recovered := recovered
        snmp := { st.snmp with
          fecRecovered := st.snmp.fecRecovered + recovered.length } }
    | none =>
      { shards := shards
        flags := flags
        numDataShard := numDataShard
        maxLen := maxLen
        recovered := st.recovered
        snmp := { st.snmp with
          fecErrs := st.snmp.fecErrs + 1
          fecRecovered := st.snmp.fecRecovered + st.recovered.length } }

/-- Drain a shard heap (the `for shard.Len() > 0` loop): the direct `Pop`
takes the last element first, so the members are processed in reverse push
order; every popped sequence id is removed from the dedup marks. -/
def drainHeap (rf : ReconFam) (D codecD codecP S cacheSize : Nat)
    (h : shardHeap) (snmp : Snmp) : DrainState × shardHeap :=
  let init : DrainState :=
    { shards := List.replicate cacheSize none
      flags := List.replicate cacheSize false
      numDataShard := 0
      maxLen := 0
      recovered := []
      snmp := snmp }
  let st := h.elements.reverse.foldl (drainStep rf D codecD codecP S) init
  let marks := h.elements.reverse.foldl (fun m p => m.erase (seqid p)) h.marks
  (st, ⟨[], marks⟩)

/-- Evict shard sets that lag the floor by more than `maxShardSets` groups
and publish the new map size (fec.go `flushShards`). -/
def fecDecoder.flushShards (dec : fecDecoder) : fecDecoder :=
  let kept := dec.shardSet.filter
    (fun e => !(decide ((maxShardSets : Int) < timediff dec.minShardId e.1)))
  { dec with
    shardSet := kept
    snmp := { dec.snmp with fecShardSet := kept.length } }

/-- Auto-tuner sampling step of `decode` (fec.go lines 125-129): every
incoming packet is sampled unconditionally, the bit being whether the
packet's type tag is the data tag. -/
def fecDecoder.sampleStep (dec : fecDecoder) (inp : Bytes) : fecDecoder :=
  { dec with tune := dec.tune.sample (flagOf inp == typeData) (seqid inp) }

/-- Mismatch-detection step of `decode` (fec.go lines 131-139): compare the
packet's type tag against the type implied by `sequence mod S`, and latch
`shouldTune` on disagreement.  The flag is never cleared here. -/
def fecDecoder.mismatchStep (dec : fecDecoder) (inp : Bytes) : fecDecoder :=
  if seqid inp % dec.shardSize < dec.dataShards then
    if flagOf inp ≠ typeData then { dec with shouldTune := true } else dec
  else
    if flagOf inp ≠ typeParity then { dec with shouldTune := true } else dec

/-- Retuning branch of `decode` (fec.go lines 141-161): query both periods
and, when both are positive and below 256 — the current geometry is not
consulted — replace the geometry.  The Go code mutates `D`, `P`, `S` and
the shard-set map before building the new codec, and bails out on a codec
error with only those four replaced; on success the codec, the caches and
the `shouldTune` flag are replaced too.  Either way the packet is dropped. -/
def fecDecoder.retuneStep (dec : fecDecoder) : fecDecoder × List Bytes :=
  let autoDS := dec.tune.findPeriod true
  let autoPS := dec.tune.findPeriod false
  if 0 < autoDS ∧ 0 < autoPS ∧ autoDS < 256 ∧ autoPS < 256 then
    let d := autoDS.toNat
    let p := autoPS.toNat
    let dec := { dec with
      dataShards := d
      parityShards := p
      shardSize := d + p
      shardSet := [] }
    if rsNewOk d p then
      ({ dec with
         codecD := d
         codecP := p
         cacheSize := d + p
         shouldTune := false }, [])
    else (dec, [])
  else (dec, [])

/-- Closing steps of the stable path (fec.go lines 244-251): advance the
floor to this group id when it is the newest seen, then evict stale shard
sets, and return the recovered payloads. -/
def fecDecoder.finishStep (dec : fecDecoder) (shardId : Nat)
    (recovered : List Bytes) : fecDecoder × List Bytes :=
  let dec :=
    if 0 < timediff shardId dec.minShardId then
      { dec with
        minShardId := shardId
        snmp := { dec.snmp with fecShardMin := shardId } }
    else dec
  (dec.flushShards, recovered)

/-- Stable path of `decode` (fec.go lines 163-251): floor check, shard-set
lookup/creation, duplicate suppression, membership, drain-and-decide, floor
advance and eviction. -/
def fecDecoder.stableStep (rf : ReconFam) (dec : fecDecoder) (inp : Bytes) :
    fecDecoder × List Bytes :=
    -- lines 163-166: drop packets of groups older than the floor
    let shardId := dec.getShardId (seqid inp)
    if timediff shardId dec.minShardId < 0 then (dec, [])
    else
      -- lines 168-173: look up or create the shard set
      let (shard, dec) :=
        match lookupSet dec.shardSet shardId with
        | some h => (h, dec)
        | none =>
          (shardHeap.empty,
           { dec with
             shardSet := storeSet dec.shardSet shardId shardHeap.empty
             snmp := { dec.snmp with fecShardSet := dec.snmp.fecShardSet + 1 } })
      -- lines 175-177: duplicate suppression
      if shard.contains (seqid inp) then (dec, [])
      else
        -- lines 179-181: parity counter
        let dec :=
          if flagOf inp = typeParity then
            { dec with snmp :=
              { dec.snmp with fecParityShards := dec.snmp.fecParityShards + 1 } }
          else dec
        -- lines 183-185: copy into a pool buffer and add as a member
        let shard := shard.push inp
        let dec := { dec with shardSet := storeSet dec.shardSet shardId shard }
        -- lines 187-242: drain and decide once membership reaches D
        let (dec, recovered) :=
          if dec.dataShards ≤ shard.elements.length then
            let (st, emptied) := drainHeap rf dec.dataShards dec.codecD
              dec.codecP dec.shardSize dec.cacheSize shard dec.snmp
            ({ dec with
               shardSet := storeSet dec.shardSet shardId emptied
               snmp := st.snmp }, st.recovered)
          else (dec, [])
        -- lines 244-251: advance the floor and evict stale shard sets
        dec.finishStep shardId recovered

/-- Decode one incoming shard packet (fec.go `fecDecoder.decode`),
parameterised over the reconstruction model `rf`: sample the auto-tuner,
detect a geometry mismatch, then take the retuning branch when the
(persistent) `shouldTune` flag is set and the stable path otherwise.
Returns the new decoder state and the recovered payloads handed to the
caller. -/
def fecDecoder.decode (rf : ReconFam) (dec : fecDecoder) (inp : Bytes) :
    fecDecoder × List Bytes :=
  let dec := (dec.sampleStep inp).mismatchStep inp
  if dec.shouldTune then dec.retuneStep else dec.stableStep rf inp

/-- Feed a list of packets to the decoder in order, collecting the union of
all recovered payload lists in call order. -/
def feedAll (rf : ReconFam) (dec : fecDecoder) (pkts : List Bytes) :
    fecDecoder × List Bytes :=
  pkts.foldl (fun acc p =>
    let (d, r) := fecDecoder.decode rf acc.1 p
    (d, acc.2 ++ r)) (dec, [])

/-! ## Shard encoder (fec.go `fecEncoder`) -/

/-- The maximum packet size (session.go `mtuLimit`). -/
def mtuLimit : Nat := 1500

/-- Overwrite the bytes of `b` starting at position `pos` with `vals`. -/
def setBytes (b : Bytes) (pos : Nat) (vals : Bytes) : Bytes :=
  b.take pos ++ vals ++ b.drop (pos + vals.length)

/-- Little-endian encoding of a `u32` value. -/
def le32 (n : Nat) : Bytes :=
  [n % 256, n / 256 % 256, n / 65536 % 256, n / 16777216 % 256]

/-- Little-endian encoding of a `u16` value. -/
def le16 (n : Nat) : Bytes := [n % 256, n / 256 % 256]

/-- Shape of a model of the codec's `Encode` step: from the `D` equal-sized
data sections compute the `P` parity sections, or fail. -/
abbrev EncodeFam := List Bytes → Option (List Bytes)

/-- Encoder state (fec.go `fecEncoder`).  `snmpErrs` carries the global
error counter the encoder increments on codec failure. -/
structure fecEncoder where
  dataShards : Nat
  parityShards : Nat
  shardSize : Nat
  paws : Nat
  next : Nat
  shardCount : Nat
  maxSize : Nat
  headerOffset : Nat
  payloadOffset : Nat
  shardCache : List Bytes
  tsLatestPacket : Int
  snmpErrs : Nat
  deriving Repr, DecidableEq

/-- Constructor (fec.go `newFECEncoder`): the PAWS ceiling is the largest
multiple of `D + P` not exceeding `2^32 - 1`. -/
def newFECEncoder (dataShards parityShards offset : Nat) : Option fecEncoder :=
  if 0 < dataShards ∧ 0 < parityShards ∧ rsNewOk dataShards parityShards then
    some { dataShards := dataShards
           parityShards := parityShards
           shardSize := dataShards + parityShards
           paws := 4294967295 / (dataShards + parityShards) *
                   (dataShards + parityShards)
           next := 0
           shardCount := 0
           maxSize := 0
           headerOffset := offset
           payloadOffset := offset + fecHeaderSize
           shardCache := List.replicate (dataShards + parityShards)
             (List.replicate mtuLimit 0)
           tsLatestPacket := 0
           snmpErrs := 0 }
  else none

/-- Advance the sequence counter past the parity slots of the current group
without emitting parity (fec.go `skipParity`). -/
def fecEncoder.skipParity (enc : fecEncoder) : fecEncoder :=
  { enc with next := (enc.next + enc.parityShards) % enc.paws }

/-- Seal one parity header and build the output buffer for parity row `j`
of the success path: the cached row is padded to `maxSize`, its payload
section replaced by the computed parity section, and the sequence id and
parity tag written at the header offset. -/
def sealParityRow (headerOffset payloadOffset maxSize seq : Nat)
    (row sect : Bytes) : Bytes :=
  setBytes (setBytes (padTo row maxSize) payloadOffset sect)
    headerOffset (le32 seq ++ le16 typeParity)

/-- Encode one outgoing packet (fec.go `fecEncoder.encode`).  `now` is the
wall-clock millisecond timestamp of this call and `rto` the caller's
staleness threshold; `ef` models the codec's `Encode` step.  Returns the
new encoder state and the parity buffers to transmit (empty unless this
call completes a group whose data is continuous and whose encoding
succeeds). -/
def fecEncoder.encode (ef : EncodeFam) (enc : fecEncoder) (b : Bytes)
    (rto : Nat) (now : Int) : fecEncoder × List Bytes :=
  -- lines 328-329: seal the data header and the length field
  let b := setBytes b enc.headerOffset (le32 enc.next ++ le16 typeData)
  let enc := { enc with next := (enc.next + 1) % enc.paws }
  let b := setBytes b enc.payloadOffset
    (le16 ((b.length - enc.payloadOffset) % 65536))
  -- lines 331-335: copy the framed packet into the cache slot
  let sz := b.length
  let row := enc.shardCache.getD enc.shardCount []
  let row := (row.take enc.payloadOffset ++ b.drop enc.payloadOffset).take sz
  let enc := { enc with
    shardCache := enc.shardCache.set enc.shardCount row
    shardCount := enc.shardCount + 1 }
  -- lines 337-340: track the maximum data-shard length
  let enc := { enc with maxSize := max enc.maxSize sz }
  -- lines 343-381: parity generation once the group is complete
  let (enc, ps) :=
    if enc.shardCount = enc.dataShards then
      let enc2 :=
        if now - enc.tsLatestPacket < (rto : Int) then
          let sections := (List.range enc.dataShards).map (fun k =>
            (padTo (enc.shardCache.getD k []) enc.maxSize).drop enc.payloadOffset)
          match ef sections with
          | some parSections =>
            let rows := (List.range enc.parityShards).map (fun j =>
              sealParityRow enc.headerOffset enc.payloadOffset enc.maxSize
                ((enc.next + j) % enc.paws)
                (enc.shardCache.getD (enc.dataShards + j) [])
                (parSections.getD j []))
            ({ enc with next := (enc.next + enc.parityShards) % enc.paws }, rows)
          | none =>
            ({ enc.skipParity with snmpErrs := enc.snmpErrs + 1 }, [])
        else (enc.skipParity, [])
      ({ enc2.1 with shardCount := 0, maxSize := 0 }, enc2.2)
    else (enc, [])
  -- line 384: record the time of the latest packet
  ({ enc with tsLatestPacket := now }, ps)

/-! ## Concrete fixtures

A decoder with geometry `D = 2, P = 1` and one complete group: data shards
with sequence ids 0 and 1 and payloads `[1]` and `[2]`, and the parity
shard with sequence id 2 and the XOR parity payload `[3]`. -/

/-- The decoder state produced by `newFECDecoder 2 1`. -/
def dec21 : fecDecoder :=
  { dataShards := 2
    parityShards := 1
    shardSize := 3
    shardSet := []
    minShardId := 0
    codecD := 2
    codecP := 1
    cacheSize := 3
    tune := autoTune.zero
    shouldTune := false
    snmp := Snmp.zero }

/-- The encoder state produced by `newFECEncoder 2 1 0`. -/
def enc21 : fecEncoder :=
  { dataShards := 2
    parityShards := 1
    shardSize := 3
    paws := 4294967295 / 3 * 3
    next := 0
    shardCount := 0
    maxSize := 0
    headerOffset := 0
    payloadOffset := 6
    shardCache := List.replicate 3 (List.replicate mtuLimit 0)
    tsLatestPacket := 0
    snmpErrs := 0 }

/-- First data shard of group 0. -/
def pktD0 : Bytes := mkPacket 0 typeData [1]

/-- Second data shard of group 0. -/
def pktD1 : Bytes := mkPacket 1 typeData [2]

/-- Parity shard of group 0 (XOR of the two data payloads). -/
def pktP2 : Bytes := mkPacket 2 typeParity [3]

/-- First data shard of group 1. -/
def pktD3 : Bytes := mkPacket 3 typeData [4]

/-- Second data shard of group 1. -/
def pktD4 : Bytes := mkPacket 4 typeData [5]

/-- Parity shard of group 1. -/
def pktP5 : Bytes := mkPacket 5 typeParity [1]

/-- A geometry-violating packet: parity type tag at data position 6. -/
def pktBad6 : Bytes := mkPacket 6 typeParity [7]

/-- A geometry-violating packet: parity type tag at data position 0. -/
def pktBad0 : Bytes := mkPacket 0 typeParity [7]

/-- The decoder state after six geometry-conforming packets (two complete
groups).  Its pulse log holds the pattern data, data, parity repeated
twice, so both auto-tuner periods equal the current geometry `(2, 1)`. -/
def decAfterSix : fecDecoder :=
  (feedAll rsModel dec21 [pktD0, pktD1, pktP2, pktD3, pktD4, pktP5]).1

/-- A pulse log obtained by sampling the fully consecutive sequence stream
0..38 (three full cycles) whose type bit alternates 10 data pulses then 3
parity pulses. -/
def log103 : autoTune :=
  (List.range 39).foldl (fun t s => t.sample (decide (s % 13 < 10)) s)
    autoTune.zero

/-- The same 10/3 stream but with sequence 18 never sampled: a gap between
the detected left edge (slot 13) and right edge (slot 23) of the data run. -/
def log103gap18 : autoTune :=
  (((List.range 39).filter (fun s => s ≠ 18))).foldl
    (fun t s => t.sample (decide (s % 13 < 10)) s) autoTune.zero

/-- The same 10/3 stream but with sequence 5 never sampled: a gap before
the left edge of the data run (slot 13 in the gapless log). -/
def log103gap5 : autoTune :=
  (((List.range 39).filter (fun s => s ≠ 5))).foldl
    (fun t s => t.sample (decide (s % 13 < 10)) s) autoTune.zero

/-- A pulse log of 256 consecutive all-parity (bit `false`) pulses: no
transition to bit `true` exists anywhere in it.  (C6 ranges over every
pulse-log state, so the state is given directly.) -/
def logAllFalse : autoTune :=
  ⟨(List.range 256).map (fun i => ⟨false, i⟩)⟩

/-! ## General lemmas -/

/-- Sanity: `dec21` is exactly the constructor's output for `D=2, P=1`. -/
theorem newFECDecoder_two_one : newFECDecoder 2 1 = some dec21 := by decide

/-- Sanity: `enc21` is exactly the constructor's output for
`D=2, P=1, offset=0`. -/
theorem newFECEncoder_two_one : newFECEncoder 2 1 0 = some enc21 := rfl

/-- The wraparound-safe difference of a sequence id with itself is zero. -/
theorem timediff_self (a : Nat) : timediff a a = 0 := by
  unfold timediff
  have h1 : (a % U32 + U32 - a % U32) % U32 = 0 := by
    have : a % U32 + U32 - a % U32 = U32 := by omega
    rw [this]; simp [U32]
  rw [h1]; norm_num

/-- A wraparound-safe comparison is antisymmetric on the non-negative
side: if `a` is not older than `b` then `b` is not newer than `a`. -/
theorem timediff_nonneg_flip {a b : Nat} (h : 0 ≤ timediff a b) :
    timediff b a ≤ 0 := by
  simp only [timediff, U32] at h ⊢
  split_ifs at h ⊢ <;> omega

/-- Every entry of `storeSet l g h` is either keyed by `g` or came from
`l`. -/
theorem mem_storeSet {l : List (Nat × shardHeap)} {g : Nat} {h : shardHeap}
    {e : Nat × shardHeap} (he : e ∈ storeSet l g h) : e.1 = g ∨ e ∈ l := by
  induction l with
  | nil =>
    simp only [storeSet, List.mem_singleton] at he
    exact Or.inl (by rw [he])
  | cons hd tl ih =>
    simp only [storeSet] at he
    split at he
    · rcases List.mem_cons.mp he with h1 | h1
      · exact Or.inl (by rw [h1])
      · exact Or.inr (List.mem_cons_of_mem _ h1)
    · rcases List.mem_cons.mp he with h1 | h1
      · exact Or.inr (by rw [h1]; exact List.mem_cons_self _ _)
      · rcases ih h1 with h2 | h2
        · exact Or.inl h2
        · exact Or.inr (List.mem_cons_of_mem _ h2)

/-- After `flushShards`, every tracked shard set lags the floor by at most
`maxShardSets` groups, with no assumption on the incoming state. -/
theorem flushShards_bound (dec : fecDecoder) :
    ∀ e ∈ dec.flushShards.shardSet,
      timediff dec.minShardId e.1 ≤ (maxShardSets : Int) := by
  intro e he
  unfold fecDecoder.flushShards at he
  simp only [List.mem_filter, Bool.not_eq_true', decide_eq_false_iff_not,
    not_lt] at he
  exact he.2

/-- `flushShards` does not move the floor. -/
theorem flushShards_min (dec : fecDecoder) :
    dec.flushShards.minShardId = dec.minShardId := rfl

/-- The retuning branch never moves the floor, and either keeps the
shard-set map or discards it entirely. -/
theorem retuneStep_min_and_set (dec : fecDecoder) :
    dec.retuneStep.1.minShardId = dec.minShardId ∧
    (dec.retuneStep.1.shardSet = dec.shardSet ∨
     dec.retuneStep.1.shardSet = []) := by
  simp only [fecDecoder.retuneStep]
  split
  · split
    · exact ⟨rfl, Or.inr rfl⟩
    · exact ⟨rfl, Or.inr rfl⟩
  · exact ⟨rfl, Or.inl rfl⟩

/-- After the closing steps of the stable path the floor has not receded,
and every surviving shard set lags the (possibly advanced) floor by at most
3 groups. -/
theorem finishStep_inv (dec : fecDecoder) (g : Nat) (recovered : List Bytes)
    (h0 : 0 ≤ timediff g dec.minShardId) :
    0 ≤ timediff (dec.finishStep g recovered).1.minShardId dec.minShardId ∧
    ∀ e ∈ (dec.finishStep g recovered).1.shardSet,
      timediff (dec.finishStep g recovered).1.minShardId e.1 ≤ 3 := by
  simp only [fecDecoder.finishStep]
  split
  · refine ⟨h0, ?_⟩
    intro e he
    rw [flushShards_min]
    exact flushShards_bound _ e he
  · refine ⟨le_of_eq (timediff_self _).symm, ?_⟩
    intro e he
    rw [flushShards_min]
    exact flushShards_bound _ e he

/-- Invariant preservation on the stable path: the floor never recedes and
every tracked shard set lags the new floor by at most 3 groups. -/
theorem stableStep_inv (rf : ReconFam) (dec : fecDecoder) (inp : Bytes)
    (hpre : ∀ e ∈ dec.shardSet, timediff dec.minShardId e.1 ≤ 3) :
    0 ≤ timediff (dec.stableStep rf inp).1.minShardId dec.minShardId ∧
    ∀ e ∈ (dec.stableStep rf inp).1.shardSet,
      timediff (dec.stableStep rf inp).1.minShardId e.1 ≤ 3 := by
  simp only [fecDecoder.stableStep]
  split
  · exact ⟨le_of_eq (timediff_self _).symm, hpre⟩
  · rename_i hold
    cases hl : lookupSet dec.shardSet (dec.getShardId (seqid inp)) with
    | some h =>
      simp only [hl]
      split
      · exact ⟨le_of_eq (timediff_self _).symm, hpre⟩
      · repeat' split
        all_goals exact finishStep_inv _ _ _ (not_lt.mp hold)
    | none =>
      simp only [hl]
      split
      · refine ⟨le_of_eq (timediff_self _).symm, ?_⟩
        intro e he
        rcases mem_storeSet (show e ∈ storeSet dec.shardSet
            (dec.getShardId (seqid inp)) shardHeap.empty from he) with h1 | h1
        · have h0 := timediff_nonneg_flip (not_lt.mp hold)
          rw [h1]
          exact le_trans h0 (by norm_num)
        · exact hpre e h1
      · repeat' split
        all_goals exact finishStep_inv _ _ _ (not_lt.mp hold)

/-- When no pulse in the log carries `bit` and the sequence numbers are
consecutive throughout, the right-edge scan never finds a transition and
never hits a gap, so it returns the zero default. -/
theorem findRight_eq_some_zero_of_no_bit (t : autoTune) (bit : Bool)
    (h1 : ∀ i, i < MaxAutoTuneSamples → (t.get i).bit = !bit)
    (h2 : ∀ i, i < MaxAutoTuneSamples - 1 →
      (t.get (i + 1)).seq = ((t.get i).seq + 1) % U32) :
    ∀ fuel idx, 0 < idx →
      findRight t bit fuel (t.get (idx - 1)) idx = some 0 := by
  intro fuel
  induction fuel with
  | zero => intro idx _; rfl
  | succ f ih =>
    intro idx hidx0
    unfold findRight
    by_cases hidx : idx < MaxAutoTuneSamples
    · rw [if_pos hidx, if_pos, if_neg]
      · have e1 : idx + 1 - 1 = idx := rfl
        have := ih (idx + 1) (Nat.succ_pos idx)
        rw [e1] at this
        exact this
      · rintro ⟨h3, -⟩
        rw [h1 (idx - 1) (by omega)] at h3
        cases bit <;> simp at h3
      · have e2 : idx - 1 + 1 = idx := by omega
        have := h2 (idx - 1) (by omega)
        rw [e2] at this
        exact this.symm
    · rw [if_neg hidx]

/-- When no transition from not-`bit` to `bit` exists between adjacent
slots, the left-edge scan never breaks and returns the zero default,
whatever the fuel, provided it starts (as the code does) with the pulse
preceding its start index. -/
theorem findLeft_eq_zero_of_no_transition (t : autoTune) (bit : Bool)
    (h1 : ∀ i, i < MaxAutoTuneSamples - 1 →
      ¬((t.get i).bit ≠ bit ∧ (t.get (i + 1)).bit = bit)) :
    ∀ fuel idx, 0 < idx → findLeft t bit fuel (t.get (idx - 1)) idx = 0 := by
  intro fuel
  induction fuel with
  | zero => intro idx _; rfl
  | succ f ih =>
    intro idx hidx0
    unfold findLeft
    by_cases hidx : idx < MaxAutoTuneSamples
    · rw [if_pos hidx, if_neg]
      · have e1 : idx + 1 - 1 = idx := rfl
        have := ih (idx + 1) (Nat.succ_pos idx)
        rw [e1] at this
        exact this
      · have hno := h1 (idx - 1) (by omega)
        have e2 : idx - 1 + 1 = idx := by omega
        rw [e2] at hno
        exact hno
    · rw [if_neg hidx]

/-- Under consecutive sequence numbers the right-edge scan never reports a
gap: it always returns some right-edge value (possibly the zero default). -/
theorem findRight_isSome_of_consecutive (t : autoTune) (bit : Bool)
    (h2 : ∀ i, i < MaxAutoTuneSamples - 1 →
      (t.get (i + 1)).seq = ((t.get i).seq + 1) % U32) :
    ∀ fuel idx, 0 < idx →
      ∃ r, findRight t bit fuel (t.get (idx - 1)) idx = some r := by
  intro fuel
  induction fuel with
  | zero => intro idx _; exact ⟨0, rfl⟩
  | succ f ih =>
    intro idx hidx0
    unfold findRight
    by_cases hidx : idx < MaxAutoTuneSamples
    · rw [if_pos hidx, if_pos]
      · by_cases hbr : (t.get (idx - 1)).bit = bit ∧ (t.get idx).bit ≠ bit
        · rw [if_pos hbr]
          exact ⟨idx, rfl⟩
        · rw [if_neg hbr]
          have e1 : idx + 1 - 1 = idx := rfl
          have := ih (idx + 1) (Nat.succ_pos idx)
          rw [e1] at this
          exact this
      · have hseq := h2 (idx - 1) (by omega)
        have e2 : idx - 1 + 1 = idx := by omega
        rw [e2] at hseq
        exact hseq.symm
    · rw [if_neg hidx]
      exact ⟨0, rfl⟩

/-- Sampling the auto-tuner does not touch the `shouldTune` flag. -/
theorem sampleStep_shouldTune (dec : fecDecoder) (inp : Bytes) :
    (dec.sampleStep inp).shouldTune = dec.shouldTune := rfl

/-- The mismatch-detection step either leaves the decoder unchanged or
merely latches `shouldTune`. -/
theorem mismatchStep_cases (dec : fecDecoder) (inp : Bytes) :
    dec.mismatchStep inp = dec ∨
    dec.mismatchStep inp = { dec with shouldTune := true } := by
  unfold fecDecoder.mismatchStep
  split <;> split <;> simp

/-- A latched `shouldTune` flag survives the mismatch-detection step. -/
theorem mismatchStep_shouldTune_of_true (dec : fecDecoder) (inp : Bytes)
    (h : dec.shouldTune = true) : (dec.mismatchStep inp).shouldTune = true := by
  rcases mismatchStep_cases dec inp with he | he
  · rw [he]; exact h
  · rw [he]

/-- The retuning branch never returns recovered payloads. -/
theorem retuneStep_snd (dec : fecDecoder) : dec.retuneStep.2 = [] := by
  simp only [fecDecoder.retuneStep]
  split
  · split <;> rfl
  · rfl

/-- When either auto-tuner period is unusable, the retuning branch leaves
the decoder state untouched and drops the packet. -/
theorem retuneStep_skip (dec : fecDecoder)
    (hg : ¬(0 < dec.tune.findPeriod true ∧ 0 < dec.tune.findPeriod false ∧
            dec.tune.findPeriod true < 256 ∧ dec.tune.findPeriod false < 256)) :
    dec.retuneStep = (dec, []) := by
  simp only [fecDecoder.retuneStep]
  rw [if_neg hg]

/-- When both auto-tuner periods are usable (and small enough for the
modelled codec constructor, which any pair of periods summing to at most
256 is), the retuning branch atomically replaces the geometry, the codec
parameters, the cache size and the shard-set map, and clears the flag. -/
theorem retuneStep_replace (dec : fecDecoder)
    (hg : 0 < dec.tune.findPeriod true ∧ 0 < dec.tune.findPeriod false ∧
          dec.tune.findPeriod true < 256 ∧ dec.tune.findPeriod false < 256)
    (hsum : (dec.tune.findPeriod true).toNat +
            (dec.tune.findPeriod false).toNat ≤ 256) :
    dec.retuneStep = ({ dec with
      dataShards := (dec.tune.findPeriod true).toNat
      parityShards := (dec.tune.findPeriod false).toNat
      shardSize := (dec.tune.findPeriod true).toNat +
                   (dec.tune.findPeriod false).toNat
      shardSet := []
      codecD := (dec.tune.findPeriod true).toNat
      codecP := (dec.tune.findPeriod false).toNat
      cacheSize := (dec.tune.findPeriod true).toNat +
                   (dec.tune.findPeriod false).toNat
      shouldTune := false }, []) := by
  have hok : rsNewOk (dec.tune.findPeriod true).toNat
      (dec.tune.findPeriod false).toNat = true := by
    simp only [rsNewOk, Bool.and_eq_true, decide_eq_true_eq]
    obtain ⟨h1, h2, -, -⟩ := hg
    refine ⟨⟨?_, ?_⟩, hsum⟩ <;> omega
  simp only [fecDecoder.retuneStep]
  rw [if_pos hg, if_pos hok]

/-! ## Claim theorems -/

/-- C1: the full-group round trip fails on the code.  Feeding all `D+P = 3`
shards of group 0 in the order parity, data 0, data 1 makes the decoder
emit one zero-filled "recovered" payload and never increment the
completed-group counter, because the complete/reconstruct decision sits
inside the drain loop: the drain triggered by the first two members (one
parity, one data) runs a reconstruction per popped member, and the second
attempt sees the empty buffer allocated by the first attempt — zero-padded
to the running maximum length — as a present data shard. -/
theorem c1_full_group_round_trip_fails :
    newFECDecoder 2 1 = some dec21 ∧
    (feedAll rsModel dec21 [pktP2, pktD0, pktD1]).2 = [[0]] ∧
    (feedAll rsModel dec21 [pktP2, pktD0, pktD1]).1.snmp.fecFullShardSet = 0 := by
  refine ⟨by decide, by decide, by decide⟩

/-- C2: single-loss recovery fails on the code.  With `D = 2, P = 1`, drop
data shard 0 (payload `[1]`) and feed the surviving data shard and the
parity shard: the decode call returns one recovered buffer, but it is the
zero-filled `[0]` rather than the missing payload `[1]` — the first drain
iteration burns a failed reconstruction (only one slot filled) and
allocates an empty buffer for the missing slot, and the second iteration
zero-pads that buffer, so the codec sees every data slot as already
present and nothing is actually reconstructed. -/
theorem c2_single_loss_recovery_fails :
    dataOf pktD0 = [1] ∧
    (feedAll rsModel dec21 [pktD1, pktP2]).2 = [[0]] ∧
    (feedAll rsModel dec21 [pktD1, pktP2]).2 ≠ [dataOf pktD0] := by
  refine ⟨by decide, by decide, by decide⟩

/-- C3: the drain-then-decide structure is violated by the code.  Feeding
the two data shards of a group (all genuine data members, so the claim
implies zero reconstruction attempts) nevertheless increments the
reconstruction-error counter once: the complete/reconstruct decision is
executed after every popped member, so the first pop of the drain attempts
(and fails) a reconstruction before the second pop records the full set. -/
theorem c3_drain_then_decide_fails :
    (feedAll rsModel dec21 [pktD0, pktD1]).1.snmp.fecErrs = 1 ∧
    (feedAll rsModel dec21 [pktD0, pktD1]).1.snmp.fecFullShardSet = 1 := by
  refine ⟨by decide, by decide⟩

/-- C10: duplicate suppression does not survive a drain.  After the two
data shards of group 0 are drained, the group remains tracked with empty
members and empty dedup marks; re-feeding sequence id 0 is accepted as a
fresh member instead of being dropped, and re-feeding both old sequence
ids triggers a second (again failing) reconstruction attempt, taking the
error counter to 2. -/
theorem c10_dedup_marks_cleared_by_drain :
    (feedAll rsModel dec21 [pktD0, pktD1]).1.shardSet = [(0, ⟨[], []⟩)] ∧
    (feedAll rsModel dec21 [pktD0, pktD1, pktD0]).1.shardSet =
      [(0, ⟨[pktD0], [0]⟩)] ∧
    (feedAll rsModel dec21 [pktD0, pktD1, pktD0, pktD1]).1.snmp.fecErrs = 2 := by
  refine ⟨by decide, by decide, by decide⟩

/-- C5 counterexample: retuning is not per-call.  The first packet carries
a parity tag at data position 0, which latches `shouldTune`; the fresh
pulse log yields no valid periods, so no reconfiguration happens — and the
flag stays set.  The second packet is perfectly well-formed (data tag at
data position 1), yet the claim's promised Stable-path processing does not
happen: no shard set is created, nothing is returned, and the decoder is
still retuning. -/
theorem c5_retuning_not_per_call :
    flagOf pktD1 = typeData ∧
    seqid pktD1 % dec21.shardSize < dec21.dataShards ∧
    (feedAll rsModel dec21 [pktBad0, pktD1]).1.shardSet = [] ∧
    (feedAll rsModel dec21 [pktBad0, pktD1]).1.shouldTune = true ∧
    (feedAll rsModel dec21 [pktBad0, pktD1]).2 = [] := by
  refine ⟨by decide, by decide, by decide, by decide, by decide⟩

/-- C4 counterexample: the retune condition does not compare the detected
periods with the current geometry.  After two conforming groups the pulse
log's periods are exactly the current `(D, P) = (2, 1)`, so the claim
asserts no replacement; yet the mismatching seventh packet makes the
decoder rebuild and discard both tracked shard sets (full resync). -/
theorem c4_retune_ignores_current_geometry :
    decAfterSix.dataShards = 2 ∧ decAfterSix.parityShards = 1 ∧
    decAfterSix.shardSet.length = 2 ∧
    ((decAfterSix.sampleStep pktBad6).mismatchStep pktBad6).tune.findPeriod
      true = 2 ∧
    ((decAfterSix.sampleStep pktBad6).mismatchStep pktBad6).tune.findPeriod
      false = 1 ∧
    (decAfterSix.decode rsModel pktBad6).1.shardSet = [] ∧
    (decAfterSix.decode rsModel pktBad6).1.shouldTune = false := by
  refine ⟨by decide, by decide, by decide, by decide, by decide, by decide,
    by decide⟩

/-- C6 counterexample: when no transition from not-`bit` to `bit` exists
anywhere in a fully consecutive log, `findPeriod` returns 0, not the
claimed failure value -1 (both edges keep their zero default). -/
theorem c6_no_left_edge_returns_zero :
    logAllFalse.pulses.all (fun p => p.bit == false) = true ∧
    logAllFalse.findPeriod true = 0 := by
  refine ⟨by decide, by decide⟩

/-- C7 counterexample: a sequence gap in the scanned range does not always
yield -1.  Omitting sequence 5 from the 10/3 stream leaves the stale
all-zero pulse in slot 5, which fabricates a false-to-true transition at
slot 6; the left edge shifts from 13 to 6 and `findPeriod(true)` reports
the wrong period 4 instead of failing. -/
theorem c7_gap_before_left_edge_gives_wrong_period :
    log103gap5.findPeriod true = 4 := by decide

/-- C6 amended: when no transition from not-`bit` to `bit` exists between
adjacent slots anywhere in the log and the stored sequence numbers are
consecutive throughout, `findPeriod` does not fail with -1: the left edge
keeps its zero default and the call returns the non-negative right-edge
position (the first `bit`-to-not-`bit` transition found scanning from slot
0, or again the zero default); in particular, when no pulse carries `bit`
at all, the call returns 0 rather than the claimed -1. -/
theorem c6_amended_no_left_edge_never_fails (t : autoTune) (bit : Bool)
    (h1 : ∀ i, i < MaxAutoTuneSamples - 1 →
      ¬((t.get i).bit ≠ bit ∧ (t.get (i + 1)).bit = bit))
    (h2 : ∀ i, i < MaxAutoTuneSamples - 1 →
      (t.get (i + 1)).seq = ((t.get i).seq + 1) % U32) :
    0 ≤ t.findPeriod bit ∧
    ((∀ i, i < MaxAutoTuneSamples → (t.get i).bit = !bit) →
      t.findPeriod bit = 0) := by
  have hl := findLeft_eq_zero_of_no_transition t bit h1
    MaxAutoTuneSamples 1 Nat.one_pos
  norm_num at hl
  constructor
  · obtain ⟨r, hr⟩ := findRight_isSome_of_consecutive t bit h2
      MaxAutoTuneSamples 1 Nat.one_pos
    norm_num at hr
    unfold autoTune.findPeriod
    simp [hl, hr, Int.natCast_nonneg]
  · intro hall
    have hr := findRight_eq_some_zero_of_no_bit t bit hall h2
      MaxAutoTuneSamples 1 Nat.one_pos
    norm_num at hr
    unfold autoTune.findPeriod
    simp [hl, hr]

/-- C6 amended, witness: the all-parity consecutive log satisfies both
hypotheses (no transition exists and the sequences are consecutive), so
the call does not fail, and since no pulse carries the data bit it indeed
yields 0. -/
theorem c6_amended_witness :
    0 ≤ logAllFalse.findPeriod true ∧ logAllFalse.findPeriod true = 0 := by
  have h := c6_amended_no_left_edge_never_fails logAllFalse true
    (by decide) (by decide)
  exact ⟨h.1, h.2 (by decide)⟩

/-- C4 amended: in the retuning branch the geometry is replaced if and
only if both auto-tuner periods are positive and below 256 — the current
`(D, P)` is never compared, so an identical-geometry retune still performs
the full resync — and when the replacement happens (the modelled codec
constructor accepting any period pair summing to at most 256) it is
atomic: `D`, `P`, `S`, the codec parameters, the cache size and the
shard-set map are replaced together and the flag is cleared. -/
theorem c4_amended_retune_condition_and_atomicity (dec : fecDecoder)
    (hsum : (dec.tune.findPeriod true).toNat +
            (dec.tune.findPeriod false).toNat ≤ 256) :
    ((0 < dec.tune.findPeriod true ∧ 0 < dec.tune.findPeriod false ∧
      dec.tune.findPeriod true < 256 ∧ dec.tune.findPeriod false < 256) →
      dec.retuneStep = ({ dec with
        dataShards := (dec.tune.findPeriod true).toNat
        parityShards := (dec.tune.findPeriod false).toNat
        shardSize := (dec.tune.findPeriod true).toNat +
                     (dec.tune.findPeriod false).toNat
        shardSet := []
        codecD := (dec.tune.findPeriod true).toNat
        codecP := (dec.tune.findPeriod false).toNat
        cacheSize := (dec.tune.findPeriod true).toNat +
                     (dec.tune.findPeriod false).toNat
        shouldTune := false }, [])) ∧
    (¬(0 < dec.tune.findPeriod true ∧ 0 < dec.tune.findPeriod false ∧
       dec.tune.findPeriod true < 256 ∧ dec.tune.findPeriod false < 256) →
      dec.retuneStep = (dec, [])) :=
  ⟨fun hg => retuneStep_replace dec hg hsum, fun hg => retuneStep_skip dec hg⟩

/-- C4 amended, witness: a decoder holding the 10/3 pulse log retunes to
`(10, 3)` with every geometry-dependent field replaced together. -/
theorem c4_amended_witness :
    ({ dec21 with tune := log103 } : fecDecoder).retuneStep =
      ({ dec21 with
         tune := log103
         dataShards := 10
         parityShards := 3
         shardSize := 13
         shardSet := []
         codecD := 10
         codecP := 3
         cacheSize := 13
         shouldTune := false }, []) := by
  rw [(c4_amended_retune_condition_and_atomicity
    { dec21 with tune := log103 } (by decide)).1 (by decide)]
  decide

/-- C5 amended: retuning is not per-call but persists.  Once `shouldTune`
is latched, every decode call takes the retuning branch and drops its
packet (no recovered output, and on unusable periods no shard-set
activity), even when the packet's type agrees with its sequence position;
the flag is cleared — synchronously within the call — only when the
auto-tuner yields usable periods for both pulse kinds. -/
theorem c5_amended_retuning_persists (rf : ReconFam) (dec : fecDecoder)
    (inp : Bytes) (h : dec.shouldTune = true) :
    fecDecoder.decode rf dec inp =
      ((dec.sampleStep inp).mismatchStep inp).retuneStep ∧
    (fecDecoder.decode rf dec inp).2 = [] ∧
    (¬(0 < ((dec.sampleStep inp).mismatchStep inp).tune.findPeriod true ∧
       0 < ((dec.sampleStep inp).mismatchStep inp).tune.findPeriod false ∧
       ((dec.sampleStep inp).mismatchStep inp).tune.findPeriod true < 256 ∧
       ((dec.sampleStep inp).mismatchStep inp).tune.findPeriod false < 256) →
      (fecDecoder.decode rf dec inp).1.shouldTune = true ∧
      (fecDecoder.decode rf dec inp).1.shardSet = dec.shardSet) ∧
    ((0 < ((dec.sampleStep inp).mismatchStep inp).tune.findPeriod true ∧
      0 < ((dec.sampleStep inp).mismatchStep inp).tune.findPeriod false ∧
      ((dec.sampleStep inp).mismatchStep inp).tune.findPeriod true < 256 ∧
      ((dec.sampleStep inp).mismatchStep inp).tune.findPeriod false < 256) →
      ((dec.sampleStep inp).mismatchStep inp).tune.findPeriod true +
        ((dec.sampleStep inp).mismatchStep inp).tune.findPeriod false ≤ 256 →
      (fecDecoder.decode rf dec inp).1.shouldTune = false) := by
  have hst : ((dec.sampleStep inp).mismatchStep inp).shouldTune = true :=
    mismatchStep_shouldTune_of_true _ inp h
  have hdec : fecDecoder.decode rf dec inp =
      ((dec.sampleStep inp).mismatchStep inp).retuneStep := by
    simp only [fecDecoder.decode]
    rw [if_pos hst]
  refine ⟨hdec, ?_, ?_, ?_⟩
  · rw [hdec]; exact retuneStep_snd _
  · intro hg
    rw [hdec, retuneStep_skip _ hg]
    refine ⟨hst, ?_⟩
    rcases mismatchStep_cases (dec.sampleStep inp) inp with he | he <;>
      rw [he] <;> rfl
  · intro hg hsum
    have hsum2 : (((dec.sampleStep inp).mismatchStep inp).tune.findPeriod
        true).toNat + (((dec.sampleStep inp).mismatchStep
        inp).tune.findPeriod false).toNat ≤ 256 := by
      obtain ⟨h1, h2, -, -⟩ := hg
      omega
    rw [hdec, retuneStep_replace _ hg hsum2]

/-- C5 amended, witness: after one mismatched packet on a fresh decoder the
auto-tuner has no usable periods, so the next (well-formed) packet is
dropped with the decoder still retuning and the shard-set map untouched. -/
theorem c5_amended_witness :
    (fecDecoder.decode rsModel (feedAll rsModel dec21 [pktBad0]).1
      pktD1).1.shouldTune = true ∧
    (fecDecoder.decode rsModel (feedAll rsModel dec21 [pktBad0]).1
      pktD1).1.shardSet = (feedAll rsModel dec21 [pktBad0]).1.shardSet :=
  (c5_amended_retuning_persists rsModel (feedAll rsModel dec21 [pktBad0]).1
    pktD1 (by decide)).2.2.1 (by decide)

/-- C7 amended: the 10/3 pattern is detected as claimed, and a sequence
gap strictly between the detected left and right edges does make
`findPeriod` fail with -1; only the claim's "anywhere in the scanned
range" is too strong (a gap ahead of the left edge can instead shift the
edge, as the counterexample shows). -/
theorem c7_amended_detection_and_inner_gap :
    log103.findPeriod true = 10 ∧ log103.findPeriod false = 3 ∧
    log103gap18.findPeriod true = -1 := by
  refine ⟨by decide, by decide, by decide⟩

/-- C8: encoder skipped cycles.  For every encode call that brings the
data-shard counter to `D`, if the elapsed wall-clock time since the
previous framed packet is at or above the staleness threshold, or the
erasure-coding encode step fails, then no parity buffers are returned, the
next-sequence counter is still advanced by exactly `P` modulo the PAWS
ceiling (on top of the data seal), and the cycle counter and max-length
tracker are reset; the model's total return type reflects that no hard
failure is propagated. -/
theorem c8_encoder_skipped_cycles (ef : EncodeFam) (enc : fecEncoder)
    (b : Bytes) (rto : Nat) (now : Int)
    (hcount : enc.shardCount + 1 = enc.dataShards)
    (hskip : (rto : Int) ≤ now - enc.tsLatestPacket ∨ ∀ s, ef s = none) :
    (fecEncoder.encode ef enc b rto now).2 = [] ∧
    (fecEncoder.encode ef enc b rto now).1.next =
      ((enc.next + 1) % enc.paws + enc.parityShards) % enc.paws ∧
    (fecEncoder.encode ef enc b rto now).1.shardCount = 0 ∧
    (fecEncoder.encode ef enc b rto now).1.maxSize = 0 := by
  simp only [fecEncoder.encode, fecEncoder.skipParity]
  rw [if_pos (by simpa using hcount)]
  by_cases ht : now - enc.tsLatestPacket < (rto : Int)
  · have hef : ∀ s, ef s = none := by
      rcases hskip with h | h
      · exact absurd ht (not_lt.mpr h)
      · exact h
    rw [if_pos ht, hef]
    simp
  · rw [if_neg ht]
    simp

/-- C8 witness: a `D=2, P=1` encoder one shard short of a full group, with
a stale clock (elapsed 1000 ms at threshold 500 ms), emits no parity and
still advances the sequence counter past the parity slot. -/
theorem c8_witness :
    (fecEncoder.encode (fun _ => none) { enc21 with shardCount := 1 }
      (List.replicate 20 7) 500 1000).2 = [] ∧
    (fecEncoder.encode (fun _ => none) { enc21 with shardCount := 1 }
      (List.replicate 20 7) 500 1000).1.next =
      ((({ enc21 with shardCount := 1 } : fecEncoder).next + 1) %
        ({ enc21 with shardCount := 1 } : fecEncoder).paws +
        ({ enc21 with shardCount := 1 } : fecEncoder).parityShards) %
        ({ enc21 with shardCount := 1 } : fecEncoder).paws ∧
    (fecEncoder.encode (fun _ => none) { enc21 with shardCount := 1 }
      (List.replicate 20 7) 500 1000).1.shardCount = 0 ∧
    (fecEncoder.encode (fun _ => none) { enc21 with shardCount := 1 }
      (List.replicate 20 7) 500 1000).1.maxSize = 0 :=
  c8_encoder_skipped_cycles (fun _ => none) { enc21 with shardCount := 1 }
    (List.replicate 20 7) 500 1000 (by decide) (Or.inl (by decide))

/-- C9: across every decode call (for any reconstruction model and input
packet) the tracked floor never decreases in the wraparound-safe ordering,
and — assuming the eviction bound held before the call — every shard set
still tracked afterwards lags the floor by at most 3 groups. -/
theorem c9_floor_monotone_and_eviction (rf : ReconFam) (dec : fecDecoder)
    (inp : Bytes)
    (hpre : ∀ e ∈ dec.shardSet, timediff dec.minShardId e.1 ≤ 3) :
    0 ≤ timediff (fecDecoder.decode rf dec inp).1.minShardId dec.minShardId ∧
    ∀ e ∈ (fecDecoder.decode rf dec inp).1.shardSet,
      timediff (fecDecoder.decode rf dec inp).1.minShardId e.1 ≤ 3 := by
  simp only [fecDecoder.decode]
  rcases mismatchStep_cases (dec.sampleStep inp) inp with he | he <;> rw [he]
  · split
    · obtain ⟨hm, hs⟩ := retuneStep_min_and_set (dec.sampleStep inp)
      constructor
      · rw [hm]; exact le_of_eq (timediff_self _).symm
      · rcases hs with hs | hs
        · rw [hm, hs]; exact hpre
        · rw [hs]; intro e he2; simp at he2
    · exact stableStep_inv rf _ inp hpre
  · split
    · obtain ⟨hm, hs⟩ :=
        retuneStep_min_and_set { dec.sampleStep inp with shouldTune := true }
      constructor
      · rw [hm]; exact le_of_eq (timediff_self _).symm
      · rcases hs with hs | hs
        · rw [hm, hs]; exact hpre
        · rw [hs]; intro e he2; simp at he2
    · exact stableStep_inv rf _ inp hpre

/-- C9 witness: one concrete decode call on the fresh `D=2, P=1` decoder
(its tracking map empty, so the precondition holds trivially). -/
theorem c9_witness :
    0 ≤ timediff (fecDecoder.decode rsModel dec21 pktD0).1.minShardId
      dec21.minShardId ∧
    ∀ e ∈ (fecDecoder.decode rsModel dec21 pktD0).1.shardSet,
      timediff (fecDecoder.decode rsModel dec21 pktD0).1.minShardId e.1 ≤ 3 :=
  c9_floor_monotone_and_eviction rsModel dec21 pktD0 (by decide)

end SafeUDP
